import Mathlib

/-!
Shallow embedding of the frontmatter codec in `particle.go` of the
njones/particle repository.

Byte streams are modelled as `List Char` (all delimiters and test data are
ASCII, and the Go code compares bytes for equality only).  The incremental
`bufio.SplitFunc` produced by `baseSplitter` is modelled as a step function
over an explicit scanner state; the `bufio.Scanner` driving loop is modelled
by `runScanner` (whole buffered input) and `runScannerChunks` (input arriving
in chunks, as the real scanner sees it when the reader delivers small reads).
The pipelined `readFrom` goroutine is modelled by the pure token-routing
function `routeTokens`, which reproduces exactly the writes `readFrom`
performs on the metadata pipe and the content pipe, in order.
The external codecs (yaml/toml/json marshal and unmarshal) are parameters:
`marshalFunc : V → Except E (List Char)` and
`unmarshalFunc : List Char → Except E V`.
-/

namespace Particle

/-- State of one `baseSplitter` closure (Go: the captured variables
`firstTime` and `checkForBotDelimiter`). -/
structure SplitState where
  firstTime : Bool
  checkForBotDelimiter : Bool
deriving DecidableEq, Repr

/-- The three byte patterns a `baseSplitter` closure is built from
(Go: the parameters `topDelimiter`, `botDelimiter`, `retDelimiter`). -/
structure SplitConfig where
  topDelimiter : List Char
  botDelimiter : List Char
  retDelimiter : List Char
deriving DecidableEq, Repr

/-- Go `checkDelimiterBytes`: true iff `data` has at least `delim.length`
bytes and its prefix of that length equals `delim`. -/
def checkDelimiterBytes (delim data : List Char) : Bool :=
  if delim.length ≤ data.length then decide (data.take delim.length = delim) else false

/-- One invocation of the `bufio.SplitFunc` returned by Go `baseSplitter`.
`none` models the return `(0, nil, nil)` (stream finished, only possible at
EOF with an empty buffer); `some (advance, token, newState)` models a
returned token.  Mirrors the Go control flow: the `firstTime` flag is
cleared on the first call whether or not the top delimiter matches. -/
def baseSplitterStep (cfg : SplitConfig) (st : SplitState) (data : List Char)
    (atEOF : Bool) : Option (Nat × List Char × SplitState) :=
  if atEOF && data.isEmpty then
    none
  else if st.firstTime && checkDelimiterBytes cfg.topDelimiter data then
    some (cfg.topDelimiter.length, cfg.retDelimiter, ⟨false, true⟩)
  else if st.checkForBotDelimiter && checkDelimiterBytes cfg.botDelimiter data then
    some (cfg.botDelimiter.length, cfg.retDelimiter, ⟨false, false⟩)
  else
    some (1, data.take 1, ⟨false, st.checkForBotDelimiter⟩)

/-- The `bufio.Scanner` loop over a fully buffered input: while bytes remain
the split function is called with `atEOF = false`; once the buffer is empty
the underlying reader reports EOF and the split function is called once with
`atEOF = true`, ending the scan.  `fuel` bounds the number of calls (the Go
splitter always advances on these configurations, so `data.length + 1` fuel
is enough). -/
def runScanner (cfg : SplitConfig) : Nat → SplitState → List Char → List (List Char)
  | 0, _, _ => []
  | fuel + 1, st, data =>
    match baseSplitterStep cfg st data data.isEmpty with
    | none => []
    | some (adv, tok, st1) => tok :: runScanner cfg fuel st1 (data.drop adv)

/-- All tokens produced by scanning `data` delivered as one whole buffer,
from a fresh splitter state. -/
def scanAll (cfg : SplitConfig) (data : List Char) : List (List Char) :=
  runScanner cfg (data.length + 1) ⟨true, false⟩ data

/-- The `bufio.Scanner` loop when the reader delivers the input in `chunks`:
because this split function returns a token whenever the buffer is nonempty,
the scanner only reads the next chunk once the buffer is exhausted, and the
split function sees `atEOF = false` whenever it sees data. -/
def runScannerChunks (cfg : SplitConfig) :
    Nat → SplitState → List Char → List (List Char) → List (List Char)
  | 0, _, _, _ => []
  | fuel + 1, st, buf, chunks =>
    if buf.isEmpty then
      match chunks with
      | [] => []
      | ch :: rest => runScannerChunks cfg fuel st ch rest
    else
      match baseSplitterStep cfg st buf false with
      | none => []
      | some (adv, tok, st1) => tok :: runScannerChunks cfg fuel st1 (buf.drop adv) chunks

/-- All tokens produced by scanning an input delivered as `chunks`, from a
fresh splitter state. -/
def scanChunks (cfg : SplitConfig) (chunks : List (List Char)) : List (List Char) :=
  runScannerChunks cfg ((chunks.map List.length).sum + chunks.length + 1) ⟨true, false⟩ [] chunks

/-- Inner loop of Go `readFrom` after a delimiter token opened the metadata
block: collect token text into the metadata stream until a token equal to
the configured delimiter string appears (then append `outEnd` and stop,
returning the unconsumed tokens), or until the tokens run out (then the
metadata stream is closed without `outEnd`). -/
def collectMatter (delimiter outEnd : List Char) :
    List (List Char) → List Char × List (List Char)
  | [] => ([], [])
  | t :: ts =>
    if t = delimiter then (outEnd, ts)
    else
      let r := collectMatter delimiter outEnd ts
      (t ++ r.1, r.2)

/-- Token routing of Go `readFrom`: the first token opens the metadata block
iff its text equals the configured delimiter string; afterwards every
remaining token's text is written to the content stream.  Returns
(metadata stream bytes, content stream bytes). -/
def routeTokens (delimiter outStart outEnd : List Char) :
    List (List Char) → List Char × List Char
  | [] => ([], [])
  | t :: ts =>
    if t = delimiter then
      let r := collectMatter delimiter outEnd ts
      (outStart ++ r.1, r.2.flatten)
    else
      ([], t ++ ts.flatten)

/-- The reusable `Encoding` configuration (Go struct `Encoding`): start and
end delimiter strings, the configured delimiter string, the
`outputDelimiter` flag, and the derived split configuration.  (Go field
`end` is named `endTok` here; `end` is a Lean keyword.)  The marshal and
unmarshal functions are passed to the operations as parameters. -/
structure Encoding where
  start : List Char
  endTok : List Char
  delimiter : List Char
  outputDelimiter : Bool
  splitCfg : SplitConfig
deriving DecidableEq, Repr

/-- Go `e.output.start`: equals `e.start` when `outputDelimiter` is set,
otherwise the empty string (NewEncoding lines 181–183). -/
def Encoding.outputStart (e : Encoding) : List Char :=
  if e.outputDelimiter then e.start else []

/-- Go `e.output.end`: equals `e.end` when `outputDelimiter` is set,
otherwise the empty string. -/
def Encoding.outputEnd (e : Encoding) : List Char :=
  if e.outputDelimiter then e.endTok else []

/-- Go `SingleTokenDelimiter`: start = end = delim, top pattern
`delim ++ "\n"`, bottom pattern `"\n" ++ delim ++ "\n"`, returned token text
`delim`. -/
def SingleTokenDelimiter (delim : List Char) : List Char × List Char × SplitConfig :=
  (delim, delim, ⟨delim ++ ['\n'], '\n' :: (delim ++ ['\n']), delim⟩)

/-- Go `strings.Split(s, " ")` for a one-character separator: split around
every space, keeping empty fields; the empty string yields `[""]`. -/
def stringsSplitOnSpace : List Char → List (List Char)
  | [] => [[]]
  | c :: cs =>
    if c = ' ' then [] :: stringsSplitOnSpace cs
    else
      match stringsSplitOnSpace cs with
      | [] => [[c]]
      | t :: ts => (c :: t) :: ts

/-- Go `SpaceSeparatedTokenDelimiters`: split the configured string on
spaces; panic (modelled as `none`) unless exactly two fields result; the
two fields become start and end delimiters, and the returned token text is
the whole configured string. -/
def SpaceSeparatedTokenDelimiters (delim : List Char) :
    Option (List Char × List Char × SplitConfig) :=
  match stringsSplitOnSpace delim with
  | [s, t] => some (s, t, ⟨s ++ ['\n'], '\n' :: (t ++ ['\n']), delim⟩)
  | _ => none

/-- Go `NewEncoding` with `WithDelimiter delim` (and optionally
`WithIncludeDelimiter`), using the default `SingleTokenDelimiter` split
function; this construction never panics. -/
def NewEncodingSingle (delim : List Char) (flag : Bool) : Encoding :=
  { start := (SingleTokenDelimiter delim).1
    endTok := (SingleTokenDelimiter delim).2.1
    delimiter := delim
    outputDelimiter := flag
    splitCfg := (SingleTokenDelimiter delim).2.2 }

/-- Go `NewEncoding` with `WithSplitFunc SpaceSeparatedTokenDelimiters`:
the construction panics (modelled as `none`) exactly when
`SpaceSeparatedTokenDelimiters` does, at construction time (NewEncoding
line 180 invokes the split function). -/
def NewEncodingPair (delim : List Char) (flag : Bool) : Option Encoding :=
  match SpaceSeparatedTokenDelimiters delim with
  | none => none
  | some (s, t, cfg) =>
    some { start := s, endTok := t, delimiter := delim, outputDelimiter := flag,
           splitCfg := cfg }

/-- Go constant `YAMLDelimiter`. -/
def YAMLDelimiter : List Char := ("---").toList

/-- Go constant `TOMLDelimiter`. -/
def TOMLDelimiter : List Char := ("+++").toList

/-- Go constant `JSONDelimiterPair`, the string of an opening brace, a
space and a closing brace. -/
def JSONDelimiterPair : List Char := ['\x7b', ' ', '\x7d']

/-- Go `YAMLEncoding` (delimiter `---`, core adds the wrapper lines). -/
def YAMLEncoding : Encoding := NewEncodingSingle YAMLDelimiter false

/-- Go `TOMLEncoding` (delimiter `+++`, core adds the wrapper lines). -/
def TOMLEncoding : Encoding := NewEncodingSingle TOMLDelimiter false

/-- Go `JSONEncoding` (paired delimiters, `WithIncludeDelimiter`). -/
def JSONEncoding : Encoding := (NewEncodingPair JSONDelimiterPair true).get (by decide)

/-- Go `readFrom`: scan the whole input and route the tokens into the
metadata stream and the content stream. -/
def readFrom (e : Encoding) (input : List Char) : List Char × List Char :=
  routeTokens e.delimiter e.outputStart e.outputEnd (scanAll e.splitCfg input)

/-- Go `encodeFrontmatter` with the codec and the hash function as
parameters and the memoization map `fmBuf` as an association list.  Returns
the result, the updated cache, and whether the marshal function was
invoked. -/
def encodeFrontmatter {V K E : Type} [DecidableEq K] (e : Encoding)
    (marshalFunc : V → Except E (List Char)) (hashFrontmatter : V → K)
    (fmBuf : List (K × List Char)) (v : V) :
    Except E (List Char) × List (K × List Char) × Bool :=
  match fmBuf.lookup (hashFrontmatter v) with
  | some f => (Except.ok f, fmBuf, false)
  | none =>
    match marshalFunc v with
    | Except.error err => (Except.error err, fmBuf, true)
    | Except.ok f =>
      let s : List Char := if e.outputDelimiter then [] else e.start ++ ['\n']
      let t : List Char := if e.outputDelimiter then [] else e.endTok
      let entry := s ++ f ++ t ++ ['\n', '\n']
      (Except.ok entry, (hashFrontmatter v, entry) :: fmBuf, true)

/-- Go `NewEncoder` writing to a writer whose already-written bytes are `w`:
on success the frontmatter is written first; on a marshal error the error is
returned and nothing is written. -/
def NewEncoder {V K E : Type} [DecidableEq K] (e : Encoding)
    (marshalFunc : V → Except E (List Char)) (hashFrontmatter : V → K)
    (fmBuf : List (K × List Char)) (w : List Char) (v : V) :
    Except E Unit × List Char × List (K × List Char) :=
  match encodeFrontmatter e marshalFunc hashFrontmatter fmBuf v with
  | (Except.ok f, buf, _) => (Except.ok (), w ++ f, buf)
  | (Except.error err, buf, _) => (Except.error err, w, buf)

/-- Go `DecodeReader` (and the shape of `NewDecoder`, `Decode` and
`DecodeString`): split the input, unmarshal the metadata bytes, and on
success return the value together with the content bytes; on an unmarshal
error return that error and nothing else (`return nil, err`). -/
def DecodeReader {V E : Type} (e : Encoding) (unmarshalFunc : List Char → Except E V)
    (input : List Char) : Except E (V × List Char) :=
  match unmarshalFunc (readFrom e input).1 with
  | Except.error err => Except.error err
  | Except.ok v => Except.ok (v, (readFrom e input).2)

/-- The exact YAML-style input of the specification's concrete scenario
(and of the repository's own `TestDecoding` test data). -/
def yamlTestFile : List Char :=
  ("---\nname: John Doe\ndate: 10-10-2016\ntitle: example YAML\n---\n\nThis is an example file.\n").toList

/-- The metadata bytes the claim expects the YAML codec to receive. -/
def yamlTestMeta : List Char :=
  ("name: John Doe\ndate: 10-10-2016\ntitle: example YAML").toList

/-- The content bytes the claim (and the repository's tests) expect. -/
def yamlTestContent : List Char := ("This is an example file.\n").toList

/-! ### Helper lemmas -/

lemma checkDelimiterBytes_append (delim rest : List Char) :
    checkDelimiterBytes delim (delim ++ rest) = true := by
  simp [checkDelimiterBytes, List.take_left]

lemma checkDelimiterBytes_short {delim data : List Char}
    (h : data.length < delim.length) : checkDelimiterBytes delim data = false := by
  simp [checkDelimiterBytes]
  omega

lemma singleton_ne_of_length_ne_one {delim : List Char} (h : delim.length ≠ 1)
    (c : Char) : ([c] : List Char) ≠ delim := by
  intro he
  exact h (he ▸ rfl)

lemma flatten_singletons : ∀ l : List Char, (l.map (fun c => [c])).flatten = l
  | [] => rfl
  | c :: cs => by simp [flatten_singletons cs]

/-- From a state with both flags cleared, the splitter emits every remaining
byte as a one-byte content token. -/
lemma runScanner_dead (cfg : SplitConfig) :
    ∀ (fuel : Nat) (data : List Char), data.length < fuel →
      runScanner cfg fuel ⟨false, false⟩ data = data.map (fun c => [c]) := by
  intro fuel
  induction fuel with
  | zero => intro data h; omega
  | succ n ih =>
    intro data h
    cases data with
    | nil => simp [runScanner, baseSplitterStep]
    | cons c cs =>
      have hrec := ih cs (by simpa using Nat.lt_of_succ_lt_succ h)
      simp [runScanner, baseSplitterStep, hrec]

/-- While waiting for the bottom delimiter, if the bottom pattern matches at
no position of the remaining input, the splitter emits every byte as a
one-byte content token. -/
lemma runScanner_waitBot (cfg : SplitConfig) :
    ∀ (fuel : Nat) (data : List Char), data.length < fuel →
      (∀ i, checkDelimiterBytes cfg.botDelimiter (data.drop i) = false) →
      runScanner cfg fuel ⟨false, true⟩ data = data.map (fun c => [c]) := by
  intro fuel
  induction fuel with
  | zero => intro data h; omega
  | succ n ih =>
    intro data h hbot
    cases data with
    | nil => simp [runScanner, baseSplitterStep]
    | cons c cs =>
      have h0 : checkDelimiterBytes cfg.botDelimiter (c :: cs) = false := by
        simpa using hbot 0
      have hrec := ih cs (by simpa using Nat.lt_of_succ_lt_succ h)
        (fun i => by simpa using hbot (i + 1))
      simp [runScanner, baseSplitterStep, h0, hrec]

/-- If the very first start-delimiter check fails, the whole scan degrades
to one-byte content tokens. -/
lemma runScanner_noStart (cfg : SplitConfig) (fuel : Nat) (data : List Char)
    (hfuel : data.length < fuel)
    (h : checkDelimiterBytes cfg.topDelimiter data = false) :
    runScanner cfg fuel ⟨true, false⟩ data = data.map (fun c => [c]) := by
  cases fuel with
  | zero => omega
  | succ n =>
    cases data with
    | nil => simp [runScanner, baseSplitterStep]
    | cons c cs =>
      have hrec := runScanner_dead cfg n cs (by simpa using Nat.lt_of_succ_lt_succ hfuel)
      simp [runScanner, baseSplitterStep, h, hrec]

lemma baseSplitterStep_start (cfg : SplitConfig) (rest : List Char)
    (htop : cfg.topDelimiter ≠ []) :
    baseSplitterStep cfg ⟨true, false⟩ (cfg.topDelimiter ++ rest)
        ((cfg.topDelimiter ++ rest).isEmpty) =
      some (cfg.topDelimiter.length, cfg.retDelimiter, ⟨false, true⟩) := by
  have h1 : (cfg.topDelimiter ++ rest).isEmpty = false := by
    cases h : cfg.topDelimiter with
    | nil => exact absurd h htop
    | cons a l => simp [h]
  simp [baseSplitterStep, h1, checkDelimiterBytes_append]

/-- Scanning an input that begins with the top delimiter, whose remainder
never matches the bottom pattern: one delimiter token, then one-byte
tokens. -/
lemma scanAll_startMatch (cfg : SplitConfig) (rest : List Char)
    (htop : cfg.topDelimiter ≠ [])
    (hbot : ∀ i, checkDelimiterBytes cfg.botDelimiter (rest.drop i) = false) :
    scanAll cfg (cfg.topDelimiter ++ rest) =
      cfg.retDelimiter :: rest.map (fun c => [c]) := by
  unfold scanAll
  simp only [runScanner, baseSplitterStep_start cfg rest htop]
  rw [List.drop_left]
  rw [runScanner_waitBot cfg ((cfg.topDelimiter ++ rest).length) rest ?_ hbot]
  have hpos : 0 < cfg.topDelimiter.length := List.length_pos.mpr htop
  simp only [List.length_append]
  omega

/-- To check the bottom pattern against every suffix of a finite input it
suffices to check the suffixes up to the input's length: beyond it the
suffix is empty and a nonempty pattern cannot match. -/
lemma checkDelimiterBytes_all_drops {delim data : List Char} (hne : delim ≠ [])
    (h : ∀ i, i ≤ data.length → checkDelimiterBytes delim (data.drop i) = false) :
    ∀ i, checkDelimiterBytes delim (data.drop i) = false := by
  intro i
  by_cases hi : i ≤ data.length
  · exact h i hi
  · have hnil : data.drop i = [] := List.drop_eq_nil_of_le (by omega)
    rw [hnil]
    exact checkDelimiterBytes_short (by simpa using List.length_pos.mpr hne)

lemma collectMatter_singletons (delimiter outEnd : List Char) (h : delimiter.length ≠ 1) :
    ∀ ts : List Char,
      collectMatter delimiter outEnd (ts.map (fun c => [c])) = (ts, []) := by
  intro ts
  induction ts with
  | nil => rfl
  | cons c cs ih =>
    simp only [List.map_cons, collectMatter]
    rw [if_neg (singleton_ne_of_length_ne_one h c)]
    simp [ih]

/-! ### Claim theorems -/

/-- C2 (amended): when `outputDelimiter` is unset the serialized frontmatter
is `startToken ++ "\n" ++ m ++ endToken ++ "\n\n"`; when it is set no
delimiter wrapper is added but the two trailing newlines still are, so the
frontmatter is `m ++ "\n\n"` (not `m` exactly). -/
theorem c2_frontmatter_framing {V K E : Type} [DecidableEq K] (e : Encoding)
    (marshalFunc : V → Except E (List Char)) (hashFrontmatter : V → K)
    (fmBuf : List (K × List Char)) (v : V) (m : List Char)
    (hmiss : fmBuf.lookup (hashFrontmatter v) = none)
    (hm : marshalFunc v = Except.ok m) :
    (encodeFrontmatter e marshalFunc hashFrontmatter fmBuf v).1 =
      Except.ok (if e.outputDelimiter then m ++ ['\n', '\n']
                 else e.start ++ ['\n'] ++ m ++ e.endTok ++ ['\n', '\n']) := by
  simp only [encodeFrontmatter, hmiss, hm]
  cases h : e.outputDelimiter <;> simp [h]

/-- C2 witness: the framing theorem applied to the YAML-style profile with a
one-byte marshal result. -/
theorem c2_frontmatter_framing_witness :
    (([] : List (Nat × List Char)).lookup ((fun _ : Unit => (0 : Nat)) ()) = none) ∧
    ((fun _ : Unit => Except.ok (ε := Unit) ['a']) () = Except.ok ['a']) ∧
    (encodeFrontmatter YAMLEncoding (fun _ : Unit => Except.ok (ε := Unit) ['a'])
        (fun _ : Unit => (0 : Nat)) [] ()).1 =
      Except.ok (if YAMLEncoding.outputDelimiter then ['a'] ++ ['\n', '\n']
                 else YAMLEncoding.start ++ ['\n'] ++ ['a'] ++ YAMLEncoding.endTok ++ ['\n', '\n']) :=
  ⟨rfl, rfl,
    c2_frontmatter_framing YAMLEncoding (fun _ : Unit => Except.ok ['a'])
      (fun _ : Unit => (0 : Nat)) [] () ['a'] rfl rfl⟩

/-- C2 counterexample: with `outputDelimiter` set (the JSON-style profile),
the serialized frontmatter is the marshaled bytes plus two newlines, not the
marshaled bytes exactly, refuting the claim's second half. -/
theorem c2_counterexample :
    (encodeFrontmatter (K := Nat) JSONEncoding (fun _ : Unit => Except.ok (ε := Unit) ['A'])
        (fun _ : Unit => (0 : Nat)) [] ()).1 = Except.ok ['A', '\n', '\n'] ∧
    (['A', '\n', '\n'] : List Char) ≠ ['A'] :=
  ⟨rfl, by decide⟩

/-- C4 (amended): on a nonempty buffer shorter than both delimiter patterns
the splitter does not request more data: regardless of the end-of-input
flag it consumes exactly one byte and emits it as plain content (clearing
the first-time flag), so delimiter recognition is not chunking-invariant. -/
theorem c4_short_buffer_consumes_byte (cfg : SplitConfig) (st : SplitState)
    (data : List Char) (atEOF : Bool) (h0 : data ≠ [])
    (h1 : data.length < cfg.topDelimiter.length)
    (h2 : data.length < cfg.botDelimiter.length) :
    baseSplitterStep cfg st data atEOF =
      some (1, data.take 1, ⟨false, st.checkForBotDelimiter⟩) := by
  have ht : checkDelimiterBytes cfg.topDelimiter data = false := checkDelimiterBytes_short h1
  have hb : checkDelimiterBytes cfg.botDelimiter data = false := checkDelimiterBytes_short h2
  have hne : data.isEmpty = false := by
    cases data with
    | nil => exact absurd rfl h0
    | cons a l => rfl
  simp [baseSplitterStep, ht, hb, hne]

/-- C4 witness: the amended theorem applied to the YAML-style configuration
and a one-byte buffer. -/
theorem c4_short_buffer_consumes_byte_witness :
    ((['-'] : List Char) ≠ []) ∧
    ((['-'] : List Char).length < YAMLEncoding.splitCfg.topDelimiter.length) ∧
    ((['-'] : List Char).length < YAMLEncoding.splitCfg.botDelimiter.length) ∧
    baseSplitterStep YAMLEncoding.splitCfg ⟨true, false⟩ ['-'] false =
      some (1, (['-'] : List Char).take 1, ⟨false, false⟩) :=
  ⟨by decide, by decide, by decide,
    c4_short_buffer_consumes_byte YAMLEncoding.splitCfg ⟨true, false⟩ ['-'] false
      (by decide) (by decide) (by decide)⟩

/-- C4 counterexample: the YAML-style input `"---\n"` scanned as one whole
buffer yields the single delimiter token, but delivered one byte at a time
it yields four one-byte content tokens; and on the one-byte buffer `"-"`
with more input still to come the splitter consumes the byte as plain
content instead of requesting more data. -/
theorem c4_counterexample :
    scanChunks YAMLEncoding.splitCfg [['-'], ['-'], ['-'], ['\n']] ≠
      scanAll YAMLEncoding.splitCfg (("---\n").toList) ∧
    baseSplitterStep YAMLEncoding.splitCfg ⟨true, false⟩ ['-'] false =
      some (1, ['-'], ⟨false, false⟩) := by
  constructor
  · decide
  · rfl

/-- C5 (amended): when the unmarshal function fails on the metadata bytes,
the decode call returns exactly that error, unwrapped — but it returns no
content: the content stream/bytes are withheld (Go returns `nil, err`). -/
theorem c5_unmarshal_error_verbatim_no_content {V E : Type} (e : Encoding)
    (unmarshalFunc : List Char → Except E V) (input : List Char) (err : E)
    (h : unmarshalFunc (readFrom e input).1 = Except.error err) :
    DecodeReader e unmarshalFunc input = Except.error err := by
  simp [DecodeReader, h]

/-- C5 witness: the amended theorem applied to a one-byte input and an
always-failing unmarshal function. -/
theorem c5_unmarshal_error_verbatim_no_content_witness :
    ((fun _ : List Char => Except.error (α := Unit) (7 : Nat))
        ((readFrom YAMLEncoding ['Z']).1) = Except.error 7) ∧
    DecodeReader YAMLEncoding (fun _ : List Char => Except.error (α := Unit) (7 : Nat)) ['Z'] =
      Except.error 7 :=
  ⟨rfl,
    c5_unmarshal_error_verbatim_no_content YAMLEncoding
      (fun _ : List Char => Except.error (7 : Nat)) ['Z'] 7 rfl⟩

/-- C5 counterexample: on a well-formed frontmatter input whose unmarshal
fails, the decode call returns only the error — although a successful
decode of the same input would have delivered nonempty content bytes, the
failing call delivers none, refuting the claim's content-unaffected half. -/
theorem c5_counterexample :
    DecodeReader YAMLEncoding (fun _ : List Char => Except.error (α := Unit) (7 : Nat))
        (("---\na\n---\n\nC").toList) = Except.error 7 ∧
    (readFrom YAMLEncoding (("---\na\n---\n\nC").toList)).2 ≠ [] :=
  ⟨rfl, by decide⟩

/-- C6: when the marshal function fails on a value not yet in the cache, the
error is propagated verbatim, the memoization cache is unchanged, and
`NewEncoder` writes nothing to the destination. -/
theorem c6_marshal_error_no_output_cache_unchanged {V K E : Type} [DecidableEq K]
    (e : Encoding) (marshalFunc : V → Except E (List Char)) (hashFrontmatter : V → K)
    (fmBuf : List (K × List Char)) (w : List Char) (v : V) (err : E)
    (hmiss : fmBuf.lookup (hashFrontmatter v) = none)
    (hm : marshalFunc v = Except.error err) :
    encodeFrontmatter e marshalFunc hashFrontmatter fmBuf v = (Except.error err, fmBuf, true) ∧
    NewEncoder e marshalFunc hashFrontmatter fmBuf w v = (Except.error err, w, fmBuf) := by
  constructor
  · simp [encodeFrontmatter, hmiss, hm]
  · simp [NewEncoder, encodeFrontmatter, hmiss, hm]

/-- C6 witness: the theorem applied to the YAML-style profile with an
always-failing marshal function and a writer holding one byte. -/
theorem c6_marshal_error_no_output_cache_unchanged_witness :
    (([] : List (Nat × List Char)).lookup ((fun _ : Unit => (0 : Nat)) ()) = none) ∧
    ((fun _ : Unit => Except.error (α := List Char) (3 : Nat)) () = Except.error 3) ∧
    encodeFrontmatter YAMLEncoding (fun _ : Unit => Except.error (α := List Char) (3 : Nat))
        (fun _ : Unit => (0 : Nat)) [] () = (Except.error 3, [], true) ∧
    NewEncoder YAMLEncoding (fun _ : Unit => Except.error (α := List Char) (3 : Nat))
        (fun _ : Unit => (0 : Nat)) [] ['w'] () = (Except.error 3, ['w'], []) := by
  refine ⟨rfl, rfl, ?_⟩
  exact c6_marshal_error_no_output_cache_unchanged YAMLEncoding
    (fun _ : Unit => Except.error (3 : Nat)) (fun _ : Unit => (0 : Nat)) [] ['w'] () 3 rfl rfl

/-- C9 (amended): constructing the paired-token profile fails fatally, at
construction time, exactly when the configured string does not split on
spaces into exactly two fields — the fields are not required to be
non-empty. -/
theorem c9_pair_construction_fails_iff (delim : List Char) (flag : Bool) :
    NewEncodingPair delim flag = none ↔ (stringsSplitOnSpace delim).length ≠ 2 := by
  unfold NewEncodingPair SpaceSeparatedTokenDelimiters
  cases h : stringsSplitOnSpace delim with
  | nil => simp
  | cons a l =>
    cases l with
    | nil => simp
    | cons b l2 =>
      cases l2 with
      | nil => simp
      | cons c l3 => simp

/-- C9 counterexample: the single-space delimiter string splits into exactly
two fields, both empty, and construction succeeds — although the claim
says construction must fail when the fields are not two non-empty tokens. -/
theorem c9_counterexample :
    stringsSplitOnSpace [' '] = [[], []] ∧
    (SpaceSeparatedTokenDelimiters [' ']).isSome = true ∧
    (NewEncodingPair [' '] false).isSome = true := by
  refine ⟨rfl, rfl, rfl⟩

/-- C7 (amended): when the start check on the first bytes fails, the whole
input is delivered as content and the metadata stream is empty (so the
destination value is whatever the unmarshal function produces from empty
input) — provided the configured delimiter string is not a single byte, so
that no one-byte content token can equal it. -/
theorem c7_no_frontmatter_passthrough (e : Encoding) (input : List Char)
    (hlen : e.delimiter.length ≠ 1)
    (hstart : checkDelimiterBytes e.splitCfg.topDelimiter input = false) :
    readFrom e input = ([], input) := by
  unfold readFrom scanAll
  rw [runScanner_noStart e.splitCfg (input.length + 1) input (Nat.lt_succ_self _) hstart]
  cases input with
  | nil => rfl
  | cons c cs =>
    simp only [List.map_cons, routeTokens]
    rw [if_neg (singleton_ne_of_length_ne_one hlen c)]
    simp [flatten_singletons]

/-- C7 witness: the passthrough theorem applied to the YAML-style profile
and an input with no frontmatter. -/
theorem c7_no_frontmatter_passthrough_witness :
    (YAMLEncoding.delimiter.length ≠ 1) ∧
    (checkDelimiterBytes YAMLEncoding.splitCfg.topDelimiter (("hello\n").toList) = false) ∧
    readFrom YAMLEncoding (("hello\n").toList) = ([], ("hello\n").toList) :=
  ⟨by decide, by decide,
    c7_no_frontmatter_passthrough YAMLEncoding (("hello\n").toList) (by decide) (by decide)⟩

/-- C7 counterexample: with the one-byte delimiter `x`, the input `"xy"`
(whose first line is not the start delimiter) does not pass through: the
byte `y` is routed to the metadata stream and the content stream is empty,
refuting the claim for arbitrary configured delimiters. -/
theorem c7_counterexample :
    checkDelimiterBytes (NewEncodingSingle ['x'] false).splitCfg.topDelimiter ['x', 'y'] = false ∧
    readFrom (NewEncodingSingle ['x'] false) ['x', 'y'] = (['y'], []) ∧
    ((['y'], []) : List Char × List Char) ≠ (([], ['x', 'y']) : List Char × List Char) := by
  refine ⟨by decide, by decide, by decide⟩

/-- C10 (amended): an input that begins with the top delimiter pattern and
never afterwards matches the bottom pattern routes everything after the
opening line into the metadata stream (prefixed by the configured output
start text), never emits the output end text, and leaves the content
stream empty — provided the configured delimiter string is not a single
byte. -/
theorem c10_unterminated_frontmatter (e : Encoding) (rest : List Char)
    (hlen : e.delimiter.length ≠ 1)
    (hret : e.splitCfg.retDelimiter = e.delimiter)
    (htop : e.splitCfg.topDelimiter ≠ [])
    (hbot : ∀ i, checkDelimiterBytes e.splitCfg.botDelimiter (rest.drop i) = false) :
    readFrom e (e.splitCfg.topDelimiter ++ rest) = (e.outputStart ++ rest, []) := by
  unfold readFrom
  rw [scanAll_startMatch e.splitCfg rest htop hbot, hret]
  simp only [routeTokens, if_pos rfl]
  rw [collectMatter_singletons e.delimiter e.outputEnd hlen rest]
  simp

/-- C10 witness: the theorem applied to a YAML-style profile with the
output-delimiter flag set and an unterminated one-byte metadata body. -/
theorem c10_unterminated_frontmatter_witness :
    ((NewEncodingSingle (("---").toList) true).delimiter.length ≠ 1) ∧
    ((NewEncodingSingle (("---").toList) true).splitCfg.retDelimiter =
      (NewEncodingSingle (("---").toList) true).delimiter) ∧
    ((NewEncodingSingle (("---").toList) true).splitCfg.topDelimiter ≠ []) ∧
    (∀ i, checkDelimiterBytes (NewEncodingSingle (("---").toList) true).splitCfg.botDelimiter
        ((['a'] : List Char).drop i) = false) ∧
    readFrom (NewEncodingSingle (("---").toList) true)
        ((NewEncodingSingle (("---").toList) true).splitCfg.topDelimiter ++ ['a']) =
      ((NewEncodingSingle (("---").toList) true).outputStart ++ ['a'], []) := by
  have hbot : ∀ i, checkDelimiterBytes (NewEncodingSingle (("---").toList) true).splitCfg.botDelimiter
      ((['a'] : List Char).drop i) = false :=
    checkDelimiterBytes_all_drops (by decide) (by decide)
  exact ⟨by decide, by decide, by decide, hbot,
    c10_unterminated_frontmatter (NewEncodingSingle (("---").toList) true) ['a']
      (by decide) (by decide) (by decide) hbot⟩

/-- C10 counterexample: with the one-byte delimiter `x` and the
output-delimiter flag set, the input `"x\naxb"` (which begins with the
start line and contains no `"\nx\n"` end sequence) yields metadata `xax`
— the end-delimiter text is emitted on the plain byte `x` — and content
`b`, which is not empty, refuting the claim for arbitrary configured
delimiters. -/
theorem c10_counterexample :
    (∀ i, checkDelimiterBytes (NewEncodingSingle ['x'] true).splitCfg.botDelimiter
        ((("axb").toList).drop i) = false) ∧
    readFrom (NewEncodingSingle ['x'] true) (("x\naxb").toList) = (("xax").toList, ['b']) ∧
    ((['b'] : List Char) ≠ []) := by
  refine ⟨checkDelimiterBytes_all_drops (by decide) (by decide), by decide, by decide⟩

/-- C8: encoding the same value twice through the same profile yields
byte-identical frontmatter both times, and the second call does not invoke
the marshal function (the memoized entry keyed by the value's hash is
reused). -/
theorem c8_memoized_encode_idempotent {V K E : Type} [DecidableEq K] (e : Encoding)
    (marshalFunc : V → Except E (List Char)) (hashFrontmatter : V → K)
    (fmBuf : List (K × List Char)) (v : V) (m : List Char)
    (hm : marshalFunc v = Except.ok m) :
    ((encodeFrontmatter e marshalFunc hashFrontmatter
        (encodeFrontmatter e marshalFunc hashFrontmatter fmBuf v).2.1 v).1 =
      (encodeFrontmatter e marshalFunc hashFrontmatter fmBuf v).1) ∧
    (encodeFrontmatter e marshalFunc hashFrontmatter
        (encodeFrontmatter e marshalFunc hashFrontmatter fmBuf v).2.1 v).2.2 = false := by
  cases hl : fmBuf.lookup (hashFrontmatter v) with
  | some f => constructor <;> simp [encodeFrontmatter, hl]
  | none => constructor <;> simp [encodeFrontmatter, hl, hm, List.lookup]

/-- C8 witness: the theorem applied to the YAML-style profile, a constant
marshal function and an empty cache. -/
theorem c8_memoized_encode_idempotent_witness :
    ((fun _ : Unit => Except.ok (ε := Unit) ['a']) () = Except.ok ['a']) ∧
    ((encodeFrontmatter YAMLEncoding (fun _ : Unit => Except.ok (ε := Unit) ['a'])
        (fun _ : Unit => (0 : Nat))
        (encodeFrontmatter YAMLEncoding (fun _ : Unit => Except.ok (ε := Unit) ['a'])
          (fun _ : Unit => (0 : Nat)) [] ()).2.1 ()).1 =
      (encodeFrontmatter YAMLEncoding (fun _ : Unit => Except.ok (ε := Unit) ['a'])
        (fun _ : Unit => (0 : Nat)) [] ()).1) ∧
    ((encodeFrontmatter YAMLEncoding (fun _ : Unit => Except.ok (ε := Unit) ['a'])
        (fun _ : Unit => (0 : Nat))
        (encodeFrontmatter YAMLEncoding (fun _ : Unit => Except.ok (ε := Unit) ['a'])
          (fun _ : Unit => (0 : Nat)) [] ()).2.1 ()).2.2 = false) := by
  refine ⟨rfl, ?_⟩
  exact c8_memoized_encode_idempotent YAMLEncoding (fun _ : Unit => Except.ok ['a'])
    (fun _ : Unit => (0 : Nat)) [] () ['a'] rfl

/-- C1: the round trip fails on the code.  Encoding a value whose marshal
output is `"a\n"` with content `"C"` through the YAML-style profile yields
the file `"---\na\n---\n\nC"`, but decoding that file hands the codec the
metadata bytes `"a"` (the trailing newline is consumed by the bottom
delimiter match) and returns content `"\nC"`, not `"C"`: the second newline
of the `"\n\n"` separator written by the encoder is never consumed by the
decoder, contradicting the repository's own round-trip tests. -/
theorem c1_roundtrip_failing_input :
    (encodeFrontmatter (K := Nat) YAMLEncoding
        (fun _ : Unit => Except.ok (ε := Unit) (("a\n").toList))
        (fun _ : Unit => (0 : Nat)) [] ()).1 = Except.ok (("---\na\n---\n\n").toList) ∧
    readFrom YAMLEncoding (("---\na\n---\n\n").toList ++ ['C']) = (['a'], ['\n', 'C']) ∧
    ((['\n', 'C'] : List Char) ≠ ['C']) := by
  refine ⟨rfl, by decide, by decide⟩

/-- C3: decoding the exact YAML-style input of the claim yields metadata
bytes `"name: John Doe\ndate: 10-10-2016\ntitle: example YAML"` (which the
YAML codec does decode to the claimed struct) but content
`"\nThis is an example file.\n"` — one leading newline more than the
claimed `"This is an example file.\n"`, contradicting the repository's own
`TestDecoding`. -/
theorem c3_decode_content_off_by_newline :
    readFrom YAMLEncoding yamlTestFile = (yamlTestMeta, '\n' :: yamlTestContent) ∧
    '\n' :: yamlTestContent ≠ yamlTestContent := by
  refine ⟨by decide, by decide⟩

end Particle
